import Mathlib

/-!
Shallow embedding of the vedolo-dashboard data-fetching scripts
(update_data.py, fetch_early_exits.py, update_exercised_usd.py,
calculate_avg_lock.py, generate_dolo_holders.py) and verification of the
specification claims about them.

Conventions of the embedding:
* Python dicts keyed by identifiers become association lists with
  insert-or-replace update (preserving Python dict insertion-order
  semantics); lookups are modelled by a recursive search.
* Floating point amounts become rationals; Python round(x, n) becomes
  rounding of x * 10^n to the nearest integer, divided by 10^n.
* Hex addresses and topics are strings, assumed lowercase-normalized
  (the scripts call .lower() before every comparison).
* Network calls are parameters: a resolver function stands for the RPC
  round-trip, a response function stands for one page request.
-/

/-- Lookup in an association list with Nat keys (models Python dict access). -/
def lookupNat {V : Type} : List (Nat × V) → Nat → Option V
  | [], _ => none
  | (k, v) :: rest, tid => if k = tid then some v else lookupNat rest tid

/-- Lookup in an association list with String keys. -/
def lookupStr {V : Type} : List (String × V) → String → Option V
  | [], _ => none
  | (k, v) :: rest, key => if k = key then some v else lookupStr rest key

/-- Insert-or-replace for Nat-keyed association lists; replacing keeps the
entry position and inserting appends, matching Python dict assignment. -/
def setNat {V : Type} : List (Nat × V) → Nat → V → List (Nat × V)
  | [], k, v => [(k, v)]
  | (k', v') :: rest, k, v =>
    if k' = k then (k, v) :: rest else (k', v') :: setNat rest k v

/-- Insert-or-replace for String-keyed association lists. -/
def setStr {V : Type} : List (String × V) → String → V → List (String × V)
  | [], k, v => [(k, v)]
  | (k', v') :: rest, k, v =>
    if k' = k then (k, v) :: rest else (k', v') :: setStr rest k v

/-- Python round(x, 2) over the rationals (ties differ from banker's
rounding only at exact half-cents, which no claim exercises). -/
def roundTo2 (q : ℚ) : ℚ := ((round (q * 100) : ℤ) : ℚ) / 100

/-- Python round(x, 4) over the rationals. -/
def roundTo4 (q : ℚ) : ℚ := ((round (q * 10000) : ℤ) : ℚ) / 10000

-- ===== update_data.py =====

/-- A decoded locked(uint256) call result: update_data.py stores
the dict with fields "amount" (DOLO, scaled by 1e18) and "end". -/
structure LockRec where
  amount : ℚ
  lockEnd : Nat
  deriving DecidableEq, Repr

/-- make_batch_call, per-word signed decode: the first 32-byte field of the
returned word is reduced by 2^128 whenever it is at least 2^127
(update_data.py lines 214-216). -/
def signedLockedAmount (w : Nat) : ℤ :=
  if w ≥ 2 ^ 127 then (w : ℤ) - 2 ^ 128 else (w : ℤ)

/-- make_batch_call, per-result decode: a call result is either the two
32-byte words of a well-formed return value (length at least 66 hex chars)
or missing; a missing or short result is recorded as zero amounts
(update_data.py lines 212-220). -/
def decodeLockedCall (res : Option (Nat × Nat)) : LockRec :=
  match res with
  | some (w1, w2) => { amount := (signedLockedAmount w1 : ℚ) / 10 ^ 18, lockEnd := w2 }
  | none => { amount := 0, lockEnd := 0 }

/-- fetch_locked_dolo (update_data.py lines 246-286): load the cache,
resolve only the token ids with no cache entry, and merge the resolver
results into the cache.  Returns the list of resolved ids and the final
cache. -/
def fetch_locked_dolo (resolver : Nat → LockRec) (cache : List (Nat × LockRec))
    (ids : List Nat) : List Nat × List (Nat × LockRec) :=
  let missing := ids.filter (fun tid => (lookupNat cache tid).isNone)
  (missing, missing.foldl (fun c tid => setNat c tid (resolver tid)) cache)

/-- The aggregate computed in update_data.main (lines 404-432): the total
locked DOLO summed over all token ids, a missing cache entry contributing
the default amount 0. -/
def aggregateLocked (cache : List (Nat × LockRec)) (ids : List Nat) : ℚ :=
  (ids.map (fun tid =>
    match lookupNat cache tid with
    | some r => r.amount
    | none => 0)).sum

-- ===== block-range pagination with dedup (update_data.fetch_all_nft_transfers,
-- generate_dolo_holders.fetch_erc20_transfers) =====

/-- A raw transfer item as returned by the list API.  subIndex is the
tokenID (update_data.py) or logIndex (generate_dolo_holders.py) used to
disambiguate several items per transaction. -/
structure BTx where
  hash : String
  subIndex : String
  blockNumber : Nat
  deriving DecidableEq, Repr

/-- The composite dedup key: tx.get("hash") + tx.get("tokenID") in
update_data.py line 80, hash + logIndex in generate_dolo_holders.py. -/
def txKey (t : BTx) : String := t.hash ++ t.subIndex

/-- One step of the dedup loop: append the item and remember its key
unless the key was already seen (update_data.py lines 79-84). -/
def dedupStep : List BTx × List String → BTx → List BTx × List String
  | (acc, seen), tx =>
    if txKey tx ∈ seen then (acc, seen) else (acc ++ [tx], seen ++ [txKey tx])

/-- Fold one page of results through the dedup loop. -/
def dedupInto (st : List BTx × List String) (results : List BTx) :
    List BTx × List String :=
  results.foldl dedupStep st

/-- The accumulated, deduplicated output of a sequence of page fetches
(the all_txs list of the block-range fetch loop). -/
def fetchPagesDedup (pages : List (List BTx)) : List BTx :=
  (pages.foldl dedupInto ([], [])).1

/-- Cursor update of the block-range loop (update_data.py lines 94-99,
generate_dolo_holders.py line 80): the next startblock is the last
returned block, force-advanced by one when it equals the current one. -/
def nextStartBlock (start : Nat) (results : List BTx) : Nat :=
  let last :=
    match results.getLast? with
    | some t => t.blockNumber
    | none => start
  if last = start then last + 1 else last

/-- Fuel-indexed block-range fetch loop (update_data.py lines 55-102):
request a page at the current startblock, dedup it into the accumulator,
stop when the page has fewer than 10000 items, else move the cursor and
continue.  Returns none when the fuel runs out before the loop stops. -/
def fetchBlocksFuel (resp : Nat → List BTx) :
    Nat → Nat → List BTx × List String → Option (List BTx)
  | 0, _, _ => none
  | fuel + 1, start, st =>
    let results := resp start
    let st' := dedupInto st results
    if results.length < 10000 then some st'.1
    else fetchBlocksFuel resp fuel (nextStartBlock start results) st'

/-- The block-range fetch loop terminates on a response function when some
finite fuel suffices to reach the stop condition. -/
def fetchBlocksTerminates (resp : Nat → List BTx) : Prop :=
  ∃ fuel, (fetchBlocksFuel resp fuel 0 ([], [])).isSome

/-- A response function that answers every request with the same full page
of 10000 items, all reporting block number 5. -/
def stuckResp : Nat → List BTx := fun _ => List.replicate 10000 ⟨"h", "t", 5⟩

-- ===== page-number pagination (calculate_avg_lock.get_all_exercise_txs,
-- update_exercised_usd.get_new_transactions) =====

/-- A transaction record from the txlist API, with the fields the scripts
filter on. -/
structure ExTx where
  hash : String
  blockNumber : Nat
  timeStamp : Nat
  methodId : String
  isError : String
  txreceiptStatus : String
  deriving DecidableEq, Repr

/-- The exercise-transaction filter shared by calculate_avg_lock.py
(lines 49-54) and update_exercised_usd.py (lines 123-128). -/
def isExerciseTx (tx : ExTx) : Bool :=
  tx.methodId == "0xa88f8139" && tx.isError == "0" && tx.txreceiptStatus == "1"

/-- Fuel-indexed page-number fetch loop (calculate_avg_lock.py lines
29-65): request a page (counted), stop on an empty result, extend the
accumulator with the filtered page, stop when the raw page is shorter
than the page size, else advance the page number.  The source holding
exactly the given item list answers page p with the p-th size-P chunk. -/
def pagedFetchGo (P : Nat) : Nat → List ExTx → List ExTx → Nat → List ExTx × Nat
  | 0, _, acc, count => (acc, count)
  | fuel + 1, items, acc, count =>
    let pg := items.take P
    if pg.isEmpty then (acc, count + 1)
    else
      let acc' := acc ++ pg.filter isExerciseTx
      if pg.length < P then (acc', count + 1)
      else pagedFetchGo P fuel (items.drop P) acc' (count + 1)

/-- get_all_exercise_txs over a source returning exactly the given items:
the collected exercise transactions and the number of page requests
issued.  The fuel items.length + 1 always suffices. -/
def get_all_exercise_txs (P : Nat) (items : List ExTx) : List ExTx × Nat :=
  pagedFetchGo P (items.length + 1) items [] 0

-- ===== fetch_early_exits.py =====

/-- An event log entry of a transaction receipt: emitting address, topic
list, and the data word parsed as an unsigned integer. -/
structure RLog where
  address : String
  topics : List String
  data : Nat
  deriving DecidableEq, Repr

def DOLO_TOKEN : String := "0x0f81001ef0a83ecce5ccebf63eb302c70a39a654"

def VEDOLO_CONTRACT : String := "0xcb86b75ee6133d179a12d550b09fb3cdb1e141d4"

def ODOLO_VESTER : String := "0x3e9b9a16743551da49b5e136c716bba7932d2cec"

def ZERO_ADDR : String := "0x0000000000000000000000000000000000000000"

def TRANSFER_TOPIC : String :=
  "0xddf252ad1be2c89b69c2b068fc378daa952ba7f163c4a11628f55a4df523b3ef"

/-- Address extraction from an indexed topic: "0x" plus the topic string
with its first 26 characters (0x and 24 zero-padding chars) dropped. -/
def topicAddr (t : String) : String := "0x" ++ (t.drop 26)

/-- Running totals of the receipt scan in fetch_receipt_and_calc_penalty. -/
structure PenAcc where
  burn : ℚ
  recoup : ℚ
  user : ℚ
  deriving DecidableEq, Repr

/-- One iteration of the receipt-log scan (fetch_early_exits.py lines
147-173): only DOLO-token Transfer logs with at least three topics and
sender equal to the veDOLO contract contribute; the destination address
classifies the amount as burn fee, recoup fee, or user payout. -/
def classifyLog (acc : PenAcc) (log : RLog) : PenAcc :=
  if log.address ≠ DOLO_TOKEN then acc
  else
    match log.topics with
    | t0 :: t1 :: t2 :: _ =>
      if t0 ≠ TRANSFER_TOPIC then acc
      else
        let amount : ℚ := (log.data : ℚ) / 10 ^ 18
        let fromAddr := topicAddr t1
        let toAddr := topicAddr t2
        if fromAddr = VEDOLO_CONTRACT then
          if toAddr = ZERO_ADDR then { acc with burn := acc.burn + amount }
          else if toAddr = ODOLO_VESTER then { acc with recoup := acc.recoup + amount }
          else if toAddr.startsWith "0xcfc30d38" then { acc with recoup := acc.recoup + amount }
          else { acc with user := acc.user + amount }
        else acc
    | _ => acc

/-- The decoded per-transaction penalty record cached by
fetch_early_exits.py (lines 178-186). -/
structure Penalty where
  burn_fee : ℚ
  recoup_fee : ℚ
  total_penalty : ℚ
  original_locked : ℚ
  user_received : ℚ
  penalty_pct : ℚ
  is_early_exit : Bool
  deriving DecidableEq, Repr

/-- fetch_receipt_and_calc_penalty (fetch_early_exits.py lines 131-186):
none when the receipt could not be fetched; otherwise the totals of the
log scan, rounded, with the early-exit flag set when the (unrounded)
total penalty is positive. -/
def fetch_receipt_and_calc_penalty (receipt : Option (List RLog)) : Option Penalty :=
  match receipt with
  | none => none
  | some logs =>
    let acc := logs.foldl classifyLog ⟨0, 0, 0⟩
    let tp := acc.burn + acc.recoup
    let ol := tp + acc.user
    some
      { burn_fee := roundTo4 acc.burn
        recoup_fee := roundTo4 acc.recoup
        total_penalty := roundTo4 tp
        original_locked := roundTo4 ol
        user_received := roundTo4 acc.user
        penalty_pct := roundTo2 (if ol > 0 then tp / ol * 100 else 0)
        is_early_exit := decide (tp > 0) }

/-- The all-zero penalty record produced for a receipt with no matching
DOLO Transfer events. -/
def zeroPenalty : Penalty :=
  { burn_fee := 0, recoup_fee := 0, total_penalty := 0, original_locked := 0
    user_received := 0, penalty_pct := 0, is_early_exit := false }

/-- Shape test for a log that fetch_receipt_and_calc_penalty can
accumulate from: a DOLO-token log with at least three topics whose first
topic is the Transfer signature. -/
def doloTransferShape (log : RLog) : Bool :=
  log.address == DOLO_TOKEN &&
    match log.topics with
    | t0 :: _ :: _ :: _ => t0 == TRANSFER_TOPIC
    | _ => false

/-- A decoded Withdraw event (fetch_early_exits.decode_withdraw_event). -/
structure WEvent where
  provider : String
  token_id : Nat
  value : ℚ
  timestamp : Nat
  block : Nat
  tx_hash : String
  deriving DecidableEq, Repr

/-- The aggregate statistics of fetch_early_exits.py Phase 4
(lines 287-299), without the last_updated timestamp field. -/
structure ExitStats where
  total_early_exits : Nat
  total_normal_exits : Nat
  total_withdrawals : Nat
  total_burn_fee_dolo : ℚ
  total_recoup_fee_dolo : ℚ
  total_penalty_dolo : ℚ
  total_original_locked : ℚ
  avg_penalty_pct : ℚ
  deriving DecidableEq, Repr

/-- Accumulator of the Phase 4 statistics loop: early count, normal
count, burn, recoup, penalty, original-locked running totals. -/
structure ExitAcc where
  early : Nat
  normal : Nat
  burn : ℚ
  recoup : ℚ
  pen : ℚ
  orig : ℚ
  deriving DecidableEq, Repr

/-- One iteration of the Phase 4 loop (fetch_early_exits.py lines
266-281): an event with no cache entry is skipped; an early exit bumps
all totals, any other resolved event only the normal count. -/
def exitStep (cache : List (String × Penalty)) (acc : ExitAcc) (ev : WEvent) : ExitAcc :=
  match lookupStr cache ev.tx_hash with
  | none => acc
  | some p =>
    if p.is_early_exit then
      { acc with
        early := acc.early + 1
        burn := acc.burn + p.burn_fee
        recoup := acc.recoup + p.recoup_fee
        pen := acc.pen + p.total_penalty
        orig := acc.orig + p.original_locked }
    else { acc with normal := acc.normal + 1 }

/-- earlyExitsStats: the Phase 4 aggregate of fetch_early_exits.py,
recomputed each run by folding the full decoded event list against the
receipt cache. -/
def earlyExitsStats (events : List WEvent) (cache : List (String × Penalty)) :
    ExitStats :=
  let a := events.foldl (exitStep cache) ⟨0, 0, 0, 0, 0, 0⟩
  { total_early_exits := a.early
    total_normal_exits := a.normal
    total_withdrawals := events.length
    total_burn_fee_dolo := roundTo2 a.burn
    total_recoup_fee_dolo := roundTo2 a.recoup
    total_penalty_dolo := roundTo2 a.pen
    total_original_locked := roundTo2 a.orig
    avg_penalty_pct := roundTo2 (if a.orig > 0 then a.pen / a.orig * 100 else 0) }

-- ===== update_exercised_usd.py =====

/-- The persisted state of update_exercised_usd.py: running USD total,
transaction count, and high-water block number. -/
structure ExState where
  total_usdc : ℚ
  total_txs : Nat
  last_block : Nat
  deriving DecidableEq, Repr

/-- One iteration of the per-transaction loop of update_exercised_usd.main
(lines 139-151): track the max block and, when the receipt resolves to a
USDC amount, add it to the new total and bump the transaction count. -/
def processExercise (resolve : String → Option ℚ) :
    ℚ × Nat × Nat → ExTx → ℚ × Nat × Nat
  | (newUsdc, totalTxs, maxBlock), tx =>
    let maxBlock' := max maxBlock tx.blockNumber
    match resolve tx.hash with
    | some amt => (newUsdc + amt, totalTxs + 1, maxBlock')
    | none => (newUsdc, totalTxs, maxBlock')

/-- update_exercised_usd.main (lines 103-168): fetch transactions after
the persisted block, filter exercise transactions, resolve each receipt,
and persist the previous total plus the newly resolved amounts.  Returns
none when there is nothing new (the script returns without saving). -/
def updateExercised (resolve : String → Option ℚ) (prev : ExState)
    (newTxs : List ExTx) : Option ExState :=
  let exTxs := newTxs.filter isExerciseTx
  if exTxs.isEmpty && newTxs.isEmpty then none
  else
    let r := exTxs.foldl (processExercise resolve) (0, prev.total_txs, prev.last_block)
    let maxBlock := newTxs.foldl (fun m tx => max m tx.blockNumber) r.2.2
    some
      { total_usdc := roundTo2 (prev.total_usdc + r.1)
        total_txs := r.2.1
        last_block := maxBlock }

/-- Modelled from the spec: the aggregate a from-scratch fold over an
item set produces — the rounded sum of the resolved amounts of its
exercise transactions, with no reference to any previously persisted
total.  This is the spec-side definition the persisted output is compared
against. -/
def scratchAggregate (resolve : String → Option ℚ) (txs : List ExTx) : ℚ :=
  roundTo2 (((txs.filter isExerciseTx).filterMap (fun tx => resolve tx.hash)).sum)

def USDC_E_CONTRACT : String := "0x549943e04f40284185054145c6e4e9568c1d3241"

/-- get_usdc_from_receipt log scan (update_exercised_usd.py lines 92-98):
the first USDC.e Transfer log paying the vester contract yields the
amount scaled by 10^6; if none matches the result is null. -/
def scanUsdc : List RLog → Option ℚ
  | [] => none
  | log :: rest =>
    if log.address = USDC_E_CONTRACT ∧ log.topics.length ≥ 3 ∧
        log.topics.head? = some TRANSFER_TOPIC ∧
        topicAddr (log.topics.getD 2 "") = ODOLO_VESTER then
      some ((log.data : ℚ) / 10 ^ 6)
    else scanUsdc rest

/-- get_usdc_from_receipt (update_exercised_usd.py lines 78-100): null
when the receipt is missing, else the result of the log scan. -/
def get_usdc_from_receipt (receipt : Option (List RLog)) : Option ℚ :=
  match receipt with
  | none => none
  | some logs => scanUsdc logs

-- ===== calculate_avg_lock.py distribution buckets =====

/-- The five distribution bucket counters of calculate_avg_lock.main
(lines 111-112). -/
structure Buckets where
  under1m : Nat
  m1to3 : Nat
  m3to6 : Nat
  m6to12 : Nat
  y1to2 : Nat
  deriving DecidableEq, Repr

/-- One iteration of the bucketing loop (calculate_avg_lock.py lines
113-124): a duration in seconds is converted to days and classified by
the 30/90/180/365-day boundary table. -/
def addBucket (b : Buckets) (d : Nat) : Buckets :=
  let days : ℚ := (d : ℚ) / 86400
  if days < 30 then { b with under1m := b.under1m + 1 }
  else if days < 90 then { b with m1to3 := b.m1to3 + 1 }
  else if days < 180 then { b with m3to6 := b.m3to6 + 1 }
  else if days < 365 then { b with m6to12 := b.m6to12 + 1 }
  else { b with y1to2 := b.y1to2 + 1 }

/-- Fold a list of durations (seconds) through the bucketing loop. -/
def bucketCounts (durations : List Nat) : Buckets :=
  durations.foldl addBucket ⟨0, 0, 0, 0, 0⟩

-- ===== update_data.build_ownership =====

/-- An NFT transfer record with the fields build_ownership reads. -/
structure NTx where
  blockNumber : Nat
  transactionIndex : Nat
  tokenID : Nat
  fromAddr : String
  toAddr : String
  deriving DecidableEq, Repr

/-- The (blockNumber, transactionIndex) ascending sort key of
update_data.py line 137, as a Bool comparator for mergeSort (Python list
sort and mergeSort are both stable). -/
def ntxLe (a b : NTx) : Bool :=
  a.blockNumber < b.blockNumber ||
    (a.blockNumber == b.blockNumber && a.transactionIndex ≤ b.transactionIndex)

/-- Sort the transfer list by (blockNumber, transactionIndex) ascending. -/
def sortTransfers (txs : List NTx) : List NTx := txs.mergeSort ntxLe

/-- The ownership dict of build_ownership (update_data.py lines 139-150):
token_id maps to the destination address of each transfer in turn, so the
final entry is the destination of the token's last transfer. -/
def buildOwnershipMap (txs : List NTx) : List (Nat × String) :=
  txs.foldl (fun m tx => setNat m tx.tokenID tx.toAddr) []

/-- The destination address of the last transfer of a token in a transfer
list. -/
def lastTransferTo (txs : List NTx) (tid : Nat) : Option String :=
  ((txs.filter (fun t => t.tokenID == tid)).map (fun t => t.toAddr)).getLast?

/-- The token_ids list built for owner a by the active_owners grouping of
build_ownership (update_data.py lines 155-176): the keys of the ownership
entries whose value is a, in insertion order, finally sorted. -/
def tokenIdsOf (m : List (Nat × String)) (a : String) : List Nat :=
  ((m.filter (fun p => p.2 = a)).map Prod.fst).mergeSort (fun x y => x ≤ y)

-- ===== cache persistence (update_data.save_cache vs fetch_early_exits) =====

/-- What a file on disk can hold: nothing, a truncated or half-written
state left by an interrupted write, or the complete serialization of a
value (valid JSON). -/
inductive FileData (α : Type) where
  | absent : FileData α
  | truncated : FileData α
  | complete : α → FileData α
  deriving DecidableEq, Repr

/-- The two files involved in a cache flush: the cache file and the
temporary file next to it. -/
structure FsState (α : Type) where
  cacheFile : FileData α
  tmpFile : FileData α
  deriving DecidableEq, Repr

/-- Primitive file-system steps.  Opening a file with mode "w" truncates
it; a completed write stores the serialized value; os.replace atomically
renames the temporary file over the cache file. -/
inductive FsOp (α : Type) where
  | beginWriteCache : FsOp α
  | endWriteCache : α → FsOp α
  | beginWriteTmp : FsOp α
  | endWriteTmp : α → FsOp α
  | renameTmp : FsOp α
  deriving DecidableEq, Repr

/-- Effect of one primitive step on the file system. -/
def applyFsOp {α : Type} (fs : FsState α) : FsOp α → FsState α
  | .beginWriteCache => { fs with cacheFile := .truncated }
  | .endWriteCache c => { fs with cacheFile := .complete c }
  | .beginWriteTmp => { fs with tmpFile := .truncated }
  | .endWriteTmp c => { fs with tmpFile := .complete c }
  | .renameTmp => { cacheFile := fs.tmpFile, tmpFile := .absent }

/-- Run a sequence of primitive steps; a crash during a flush corresponds
to running only a prefix of the sequence. -/
def runFsOps {α : Type} (fs : FsState α) (ops : List (FsOp α)) : FsState α :=
  ops.foldl applyFsOp fs

/-- save_cache (update_data.py lines 239-243): serialize the whole cache
to CACHE_FILE + ".tmp", then os.replace it over the cache file. -/
def save_cache {α : Type} (c : α) : List (FsOp α) :=
  [.beginWriteTmp, .endWriteTmp c, .renameTmp]

/-- The cache flush of fetch_early_exits.main (lines 244-253): open the
cache file itself with mode "w" and serialize into it — no temporary
file and no rename. -/
def earlyExitsFlush {α : Type} (c : α) : List (FsOp α) :=
  [.beginWriteCache, .endWriteCache c]

-- ===== concrete inputs used by witnesses and counterexamples =====

/-- Witness resolver for the resumability theorem. -/
def wResolver : Nat → LockRec := fun tid => { amount := (tid : ℚ), lockEnd := 100 }

/-- Witness cache holding the decoded result for token 1 only. -/
def wCache : List (Nat × LockRec) := [(1, { amount := 1, lockEnd := 100 })]

/-- A concrete exercise transaction (passes the method and status
filters). -/
def cExTx : ExTx :=
  { hash := "0xabc", blockNumber := 5, timeStamp := 1700000000
    methodId := "0xa88f8139", isError := "0", txreceiptStatus := "1" }

/-- A concrete receipt resolver returning 3 USDC for every hash. -/
def cResolve : String → Option ℚ := fun _ => some 3

/-- A concrete previously persisted state with total 7. -/
def cPrev : ExState := { total_usdc := 7, total_txs := 1, last_block := 0 }

/-- A concrete Withdraw event used to exercise the Phase 4 fold. -/
def cWEvent : WEvent :=
  { provider := "0xaa", token_id := 1, value := 2, timestamp := 10
    block := 3, tx_hash := "0xabc" }

/-- A concrete mint transfer: token 1 minted to address a. -/
def cMint : NTx :=
  { blockNumber := 1, transactionIndex := 0, tokenID := 1
    fromAddr := ZERO_ADDR, toAddr := "0xaaa" }

-- ===== theorems =====

-- helper lemmas on association lists

theorem lookupNat_setNat {V : Type} (m : List (Nat × V)) (k k' : Nat) (v : V) :
    lookupNat (setNat m k v) k' = if k = k' then some v else lookupNat m k' := by
  induction m with
  | nil => simp [setNat, lookupNat]
  | cons p rest ih =>
    obtain ⟨k0, v0⟩ := p
    by_cases h0 : k0 = k
    · subst h0
      by_cases h1 : k0 = k'
      · subst h1
        simp [setNat, lookupNat]
      · simp [setNat, lookupNat, h1]
    · by_cases h1 : k0 = k'
      · subst h1
        have h2 : ¬ k = k0 := fun h => h0 h.symm
        simp [setNat, lookupNat, h0, h2]
      · simp [setNat, lookupNat, h0, h1, ih]

theorem roundTo2_zero : roundTo2 0 = 0 := by
  simp [roundTo2]

theorem roundTo4_zero : roundTo4 0 = 0 := by
  simp [roundTo4]

-- C8: distribution buckets for durations [5, 45, 200, 400] days

/-- C8 counterexample: folding the durations 5, 45, 200 and 400 days (in
seconds) through the bucketing loop does not produce the bucket counts
the claim states (1, 0, 1, 0, 1): 45 days falls in the 1-3 months bucket
and 200 days in the 6-12 months bucket. -/
theorem bucket_counts_claimed_values_cex :
    bucketCounts [432000, 3888000, 17280000, 34560000] ≠ ⟨1, 0, 1, 0, 1⟩ := by
  norm_num [bucketCounts, addBucket]

/-- C8 (amended): folding the lock durations 5, 45, 200 and 400 days
through the distribution bucketing with boundary table 30/90/180/365 days
yields bucket counts 1, 1, 0, 1, 1 for the buckets under one month,
1-3 months, 3-6 months, 6-12 months, 1-2 years respectively. -/
theorem bucket_counts_5_45_200_400 :
    bucketCounts [432000, 3888000, 17280000, 34560000] = ⟨1, 1, 0, 1, 1⟩ := by
  norm_num [bucketCounts, addBucket]

-- C9: signed 128-bit decode of the locked amount

/-- C9: make_batch_call decodes the locked amount as a signed value: any
first word at least 2^127 has 2^128 subtracted before scaling by 10^18
(so the cached amount can be negative, as at word 2^127 exactly), and any
word below 2^127 is decoded as the plain unsigned integer scaled by
10^18. -/
theorem locked_amount_signed_decode (w e : Nat) :
    (2 ^ 127 ≤ w →
      (decodeLockedCall (some (w, e))).amount = (((w : ℤ) - 2 ^ 128 : ℤ) : ℚ) / 10 ^ 18)
    ∧ (w < 2 ^ 127 →
      (decodeLockedCall (some (w, e))).amount = ((w : ℤ) : ℚ) / 10 ^ 18)
    ∧ (decodeLockedCall (some (2 ^ 127, e))).amount < 0 := by
  refine ⟨fun h => ?_, fun h => ?_, ?_⟩
  · simp only [decodeLockedCall, signedLockedAmount, if_pos h]
  · simp only [decodeLockedCall, signedLockedAmount, if_neg (not_le.mpr h)]
  · have h : (2 : Nat) ^ 127 ≤ 2 ^ 127 := le_refl _
    simp only [decodeLockedCall, signedLockedAmount, if_pos h]
    rw [div_neg_iff]
    right
    constructor
    · push_cast
      norm_num
    · norm_num

/-- C9 witness: the decode evaluated at the words 2^127 and 3. -/
theorem locked_amount_signed_decode_witness :
    (decodeLockedCall (some (2 ^ 127, 0))).amount
      = (((((2 ^ 127 : ℕ) : ℤ)) - 2 ^ 128 : ℤ) : ℚ) / 10 ^ 18
    ∧ (decodeLockedCall (some (3, 0))).amount = ((((3 : ℕ) : ℤ)) : ℚ) / 10 ^ 18 :=
  ⟨(locked_amount_signed_decode (2 ^ 127) 0).1 (by norm_num),
   (locked_amount_signed_decode 3 0).2.1 (by norm_num)⟩

-- C6: atomicity of cache flushes

/-- C6 counterexample: the cache flush of fetch_early_exits.main contains
no rename step at all, and interrupting it after its first primitive step
(the truncating open of the cache file itself) leaves the cache file
truncated — neither the previous valid contents nor any complete
serialization. -/
theorem early_exits_flush_not_atomic_cex :
    FsOp.renameTmp ∉ earlyExitsFlush (α := Nat) 2
    ∧ (runFsOps { cacheFile := FileData.complete 1, tmpFile := FileData.absent }
        ((earlyExitsFlush (α := Nat) 2).take 1)).cacheFile = FileData.truncated
    ∧ (FileData.truncated : FileData Nat) ≠ FileData.complete 1
    ∧ (FileData.truncated : FileData Nat) ≠ FileData.complete 2 := by
  refine ⟨?_, rfl, ?_, ?_⟩ <;> decide

/-- C6 (amended): update_data.save_cache is atomic: interrupting it after
any number of primitive steps leaves the cache file holding either the
previous complete contents or the new complete contents.  (The
counterexample shows fetch_early_exits flushes the cache file in place,
with no temporary file and no rename, so the same guarantee fails
there.) -/
theorem save_cache_atomic {α : Type} (c0 c : α) (fs : FsState α) (k : Nat)
    (h : fs.cacheFile = FileData.complete c0) :
    (runFsOps fs ((save_cache c).take k)).cacheFile = FileData.complete c0
    ∨ (runFsOps fs ((save_cache c).take k)).cacheFile = FileData.complete c := by
  match k with
  | 0 => left; simpa [save_cache, runFsOps] using h
  | 1 => left; simpa [save_cache, runFsOps, applyFsOp] using h
  | 2 => left; simpa [save_cache, runFsOps, applyFsOp] using h
  | (n + 3) =>
    right
    have htake : (save_cache c).take (n + 3) = save_cache c :=
      List.take_of_length_le (by simp [save_cache])
    rw [htake]
    simp [save_cache, runFsOps, applyFsOp]

/-- C6 witness: interrupting the atomic flush of cache contents 2 over
previous contents 1 after one step keeps the previous contents. -/
theorem save_cache_atomic_witness :
    (runFsOps { cacheFile := FileData.complete 1, tmpFile := FileData.absent }
        ((save_cache (α := Nat) 2).take 1)).cacheFile = FileData.complete 1
    ∨ (runFsOps { cacheFile := FileData.complete 1, tmpFile := FileData.absent }
        ((save_cache (α := Nat) 2).take 1)).cacheFile = FileData.complete 2 :=
  save_cache_atomic 1 2 _ 1 rfl

-- C7: null vs zero for unresolved records

theorem classifyLog_skip (acc : PenAcc) (log : RLog)
    (h : doloTransferShape log = false) : classifyLog acc log = acc := by
  obtain ⟨addr, topics, d⟩ := log
  by_cases ha : addr = DOLO_TOKEN
  · subst ha
    match topics with
    | [] => simp [classifyLog]
    | [t0] => simp [classifyLog]
    | [t0, t1] => simp [classifyLog]
    | t0 :: t1 :: t2 :: rest =>
      simp only [doloTransferShape, beq_self_eq_true, Bool.true_and,
        beq_eq_false_iff_ne, ne_eq] at h
      simp [classifyLog, h]
  · simp [classifyLog, ha]

theorem foldl_classifyLog_const (logs : List RLog) (acc : PenAcc)
    (h : ∀ l ∈ logs, doloTransferShape l = false) :
    logs.foldl classifyLog acc = acc := by
  induction logs generalizing acc with
  | nil => rfl
  | cons x xs ih =>
    rw [List.foldl_cons, classifyLog_skip acc x (h x (List.mem_cons_self x xs)),
      ih acc (fun l hl => h l (List.mem_cons_of_mem x hl))]

theorem scanUsdc_none (logs : List RLog)
    (h : ∀ l ∈ logs, ¬ (l.address = USDC_E_CONTRACT ∧ l.topics.length ≥ 3 ∧
      l.topics.head? = some TRANSFER_TOPIC)) :
    scanUsdc logs = none := by
  induction logs with
  | nil => rfl
  | cons x xs ih =>
    have hx := h x (List.mem_cons_self x xs)
    simp only [scanUsdc]
    rw [if_neg fun hc => hx ⟨hc.1, hc.2.1, hc.2.2.1⟩]
    exact ih fun l hl => h l (List.mem_cons_of_mem x hl)

/-- C7 counterexample: a receipt that was fetched successfully but holds
no matching DOLO Transfer event does not give a null record — the
resolver returns a record with all amounts zero, classified as a normal
exit. -/
theorem penalty_zero_record_cex :
    fetch_receipt_and_calc_penalty (some []) = some zeroPenalty
    ∧ fetch_receipt_and_calc_penalty (some []) ≠ none := by
  constructor
  · simp only [fetch_receipt_and_calc_penalty, List.foldl_nil]
    norm_num [zeroPenalty, roundTo2, roundTo4]
  · simp [fetch_receipt_and_calc_penalty]

/-- C7 (amended): get_usdc_from_receipt does mark a no-match receipt as
null; but fetch_receipt_and_calc_penalty returns null only when the
receipt itself cannot be fetched — a fetched receipt with no matching
DOLO Transfer event yields the all-zero record — and make_batch_call
records zero amounts (not null) for a missing or short call result. -/
theorem unresolved_marking_policy (usLogs doLogs : List RLog)
    (hus : ∀ l ∈ usLogs, ¬ (l.address = USDC_E_CONTRACT ∧ l.topics.length ≥ 3 ∧
      l.topics.head? = some TRANSFER_TOPIC))
    (hdo : ∀ l ∈ doLogs, doloTransferShape l = false) :
    get_usdc_from_receipt (some usLogs) = none
    ∧ fetch_receipt_and_calc_penalty (some doLogs) = some zeroPenalty
    ∧ decodeLockedCall none = { amount := 0, lockEnd := 0 } := by
  refine ⟨scanUsdc_none usLogs hus, ?_, rfl⟩
  simp only [fetch_receipt_and_calc_penalty, foldl_classifyLog_const doLogs _ hdo]
  norm_num [zeroPenalty, roundTo2, roundTo4]

/-- C7 witness: the policy evaluated on empty log lists. -/
theorem unresolved_marking_policy_witness :
    get_usdc_from_receipt (some []) = none
    ∧ fetch_receipt_and_calc_penalty (some []) = some zeroPenalty
    ∧ decodeLockedCall none = { amount := 0, lockEnd := 0 } :=
  unresolved_marking_policy [] [] (by simp) (by simp)

-- C2: from-scratch recomputation vs incremental merge

theorem roundTo2_int (n : ℤ) : roundTo2 ((n : ℤ) : ℚ) = (n : ℚ) := by
  rw [roundTo2]
  have h : ((n : ℚ) * 100) = ((n * 100 : ℤ) : ℚ) := by push_cast; ring
  rw [h, round_intCast]
  push_cast
  rw [mul_div_assoc]
  norm_num

theorem processExercise_foldl (resolve : String → Option ℚ) (txs : List ExTx) :
    ∀ (u : ℚ) (n b : Nat),
    (txs.foldl (processExercise resolve) (u, n, b)).1
      = u + (txs.filterMap (fun tx => resolve tx.hash)).sum := by
  induction txs with
  | nil => intro u n b; simp
  | cons x xs ih =>
    intro u n b
    rw [List.foldl_cons]
    rcases hr : resolve x.hash with _ | a
    · simp only [processExercise, hr, List.filterMap_cons, ih]
    · simp only [processExercise, hr, List.filterMap_cons, ih, List.sum_cons]
      ring

theorem exitStep_foldl_pen (cache : List (String × Penalty)) (events : List WEvent) :
    ∀ a : ExitAcc,
    (events.foldl (exitStep cache) a).pen
      = a.pen + ((((events.filterMap (fun ev => lookupStr cache ev.tx_hash)).filter
          (fun p => p.is_early_exit)).map Penalty.total_penalty).sum) := by
  induction events with
  | nil => intro a; simp
  | cons ev evs ih =>
    intro a
    rw [List.foldl_cons]
    rcases hl : lookupStr cache ev.tx_hash with _ | p
    · simp only [exitStep, hl, List.filterMap_cons, ih]
    · rcases hp : p.is_early_exit with _ | _
      · simp [exitStep, hl, hp, ih]
      · simp [exitStep, hl, hp, ih]
        ring

/-- Helper evaluation: one run of update_exercised_usd.main over a single
new exercise transaction, starting from the persisted total 7. -/
theorem updateExercised_concrete :
    updateExercised cResolve cPrev [cExTx]
      = some { total_usdc := 10, total_txs := 2, last_block := 5 } := by
  have hfil : List.filter isExerciseTx [cExTx] = [cExTx] := by decide
  simp only [updateExercised, cResolve, cPrev, cExTx] at *
  rw [hfil]
  simp only [List.foldl_cons, List.foldl_nil, processExercise, cResolve]
  norm_num
  rw [show (10 : ℚ) = ((10 : ℤ) : ℚ) from by norm_num, roundTo2_int]

/-- C2 counterexample: the persisted aggregate of update_exercised_usd is
computed by adding newly fetched amounts to the previously persisted
total: starting from a persisted total of 7 and one new transaction
resolving to 3, the run persists 10, while a fold recomputed from scratch
over the full item set available to the run yields 3 — the output depends
on the previously persisted aggregate, not only on the item set. -/
theorem exercised_total_not_from_scratch_cex :
    updateExercised cResolve cPrev [cExTx]
      = some { total_usdc := 10, total_txs := 2, last_block := 5 }
    ∧ scratchAggregate cResolve [cExTx] = 3
    ∧ (10 : ℚ) ≠ 3 := by
  refine ⟨updateExercised_concrete, ?_, by norm_num⟩
  have hfil : List.filter isExerciseTx [cExTx] = [cExTx] := by decide
  simp only [scratchAggregate, cResolve]
  rw [hfil]
  simp only [List.filterMap_cons, List.filterMap_nil, List.sum_cons, List.sum_nil]
  rw [show (3 + 0 : ℚ) = ((3 : ℤ) : ℚ) from by norm_num, roundTo2_int]
  norm_num

/-- C2 (amended): fetch_early_exits recomputes its aggregate from scratch
each run — its Phase 4 statistics are a pure fold of the full decoded
event set joined with the receipt cache — while update_exercised_usd
persists the previously persisted total plus the sum of the newly fetched
resolved amounts, i.e. an aggregate-level incremental merge. -/
theorem aggregate_recompute_policy :
    (∀ (resolve : String → Option ℚ) (prev : ExState) (txs : List ExTx) (st : ExState),
      updateExercised resolve prev txs = some st →
      st.total_usdc = roundTo2 (prev.total_usdc +
        ((txs.filter isExerciseTx).filterMap (fun tx => resolve tx.hash)).sum))
    ∧ ∀ (events : List WEvent) (cache : List (String × Penalty)),
      (earlyExitsStats events cache).total_penalty_dolo
        = roundTo2 ((((events.filterMap (fun ev => lookupStr cache ev.tx_hash)).filter
            (fun p => p.is_early_exit)).map Penalty.total_penalty).sum) := by
  constructor
  · intro resolve prev txs st h
    simp only [updateExercised] at h
    split at h
    · exact absurd h (by simp)
    · rw [Option.some.injEq] at h
      rw [← h]
      simp only [processExercise_foldl, zero_add]
  · intro events cache
    simp only [earlyExitsStats, exitStep_foldl_pen, zero_add]

/-- C2 witness: the policy applied to the single-transaction run of the
counterexample and to the empty early-exit event set. -/
theorem aggregate_recompute_policy_witness :
    ((⟨10, 2, 5⟩ : ExState).total_usdc = roundTo2 (cPrev.total_usdc +
      (([cExTx].filter isExerciseTx).filterMap (fun tx => cResolve tx.hash)).sum))
    ∧ (earlyExitsStats [] []).total_penalty_dolo
        = roundTo2 ((((([] : List WEvent).filterMap
            (fun ev => lookupStr ([] : List (String × Penalty)) ev.tx_hash)).filter
            (fun p => p.is_early_exit)).map Penalty.total_penalty).sum) :=
  ⟨aggregate_recompute_policy.1 cResolve cPrev [cExTx] ⟨10, 2, 5⟩ updateExercised_concrete,
   aggregate_recompute_policy.2 [] []⟩

-- C1: resumability of the cached resolver pipeline

theorem lookupNat_foldl_resolver (resolver : Nat → LockRec) (tid : Nat)
    (missing : List Nat) :
    ∀ c : List (Nat × LockRec),
    lookupNat (missing.foldl (fun c t => setNat c t (resolver t)) c) tid
      = if tid ∈ missing then some (resolver tid) else lookupNat c tid := by
  induction missing with
  | nil => intro c; simp
  | cons t rest ih =>
    intro c
    rw [List.foldl_cons, ih]
    by_cases h : tid ∈ rest
    · simp [h, List.mem_cons]
    · rw [if_neg h, lookupNat_setNat]
      by_cases ht : t = tid
      · subst ht
        simp
      · have hne : tid ≠ t := fun hh => ht hh.symm
        simp [List.mem_cons, h, hne, ht]

/-- C1: given a fetch returning the item set ids and a cache
pre-populated with the decoded results of a subset of them, a run
resolves exactly the ids missing from the cache, and the aggregate over
the resulting cache equals the aggregate a cold run with an empty cache
produces over the same ids (the resolver returning the same decoded
record in both runs). -/
theorem fetch_locked_dolo_resumes_and_matches_cold_run
    (resolver : Nat → LockRec) (cache : List (Nat × LockRec)) (ids : List Nat)
    (hcached : ∀ tid r, lookupNat cache tid = some r → r = resolver tid) :
    (fetch_locked_dolo resolver cache ids).1
      = ids.filter (fun tid => (lookupNat cache tid).isNone)
    ∧ aggregateLocked (fetch_locked_dolo resolver cache ids).2 ids
      = aggregateLocked (fetch_locked_dolo resolver [] ids).2 ids := by
  refine ⟨rfl, ?_⟩
  unfold aggregateLocked
  apply congrArg List.sum
  apply List.map_congr_left
  intro tid htid
  have hw : lookupNat (fetch_locked_dolo resolver cache ids).2 tid
      = some (resolver tid) := by
    simp only [fetch_locked_dolo]
    rw [lookupNat_foldl_resolver]
    by_cases hmem : tid ∈ ids.filter (fun tid => (lookupNat cache tid).isNone)
    · rw [if_pos hmem]
    · rw [if_neg hmem]
      rcases hsome : lookupNat cache tid with _ | r
      · exact absurd (List.mem_filter.mpr ⟨htid, by simp [hsome]⟩) hmem
      · rw [hcached tid r hsome]
  have hc : lookupNat (fetch_locked_dolo resolver [] ids).2 tid
      = some (resolver tid) := by
    simp only [fetch_locked_dolo]
    rw [lookupNat_foldl_resolver]
    have hmem : tid ∈ ids.filter
        (fun tid => (lookupNat ([] : List (Nat × LockRec)) tid).isNone) := by
      exact List.mem_filter.mpr ⟨htid, by simp [lookupNat]⟩
    rw [if_pos hmem]
  rw [hw, hc]

/-- C1 witness: items 1 and 2 with item 1 pre-cached — only item 2 is
resolved and the aggregate matches the cold run. -/
theorem fetch_locked_dolo_resumes_witness :
    (fetch_locked_dolo wResolver wCache [1, 2]).1
      = [1, 2].filter (fun tid => (lookupNat wCache tid).isNone)
    ∧ aggregateLocked (fetch_locked_dolo wResolver wCache [1, 2]).2 [1, 2]
      = aggregateLocked (fetch_locked_dolo wResolver [] [1, 2]).2 [1, 2] :=
  fetch_locked_dolo_resumes_and_matches_cold_run wResolver wCache [1, 2] (by
    intro tid r h
    simp only [wCache, lookupNat] at h
    split at h
    · next heq =>
      rw [Option.some.injEq] at h
      rw [← h, ← heq]
      simp [wResolver]
    · exact absurd h (by simp))

-- C4: page-number pagination request count and output

theorem pagedFetchGo_spec (P : Nat) (hP : 0 < P) :
    ∀ (fuel : Nat) (items acc : List ExTx) (count : Nat), items.length < fuel →
    pagedFetchGo P fuel items acc count
      = (acc ++ items.filter isExerciseTx, count + items.length / P + 1) := by
  intro fuel
  induction fuel with
  | zero => intro items acc count h; omega
  | succ f ih =>
    intro items acc count h
    match items with
    | [] =>
      simp [pagedFetchGo, Nat.zero_div]
    | x :: xs =>
      have hne : ¬ ((x :: xs).take P).isEmpty = true := by
        rcases P with _ | P0
        · omega
        · simp [List.take]
      by_cases hlen : (x :: xs).length < P
      · have htake : (x :: xs).take P = x :: xs :=
          List.take_of_length_le (Nat.le_of_lt hlen)
        have hlt : ((x :: xs).take P).length < P := by rw [htake]; exact hlen
        rw [pagedFetchGo, if_neg hne, if_pos hlt, htake,
          Nat.div_eq_of_lt hlen]
      · have hge : P ≤ (x :: xs).length := Nat.le_of_not_lt hlen
        have htlen : ((x :: xs).take P).length = P := by
          rw [List.length_take]
          omega
        have hnlt : ¬ ((x :: xs).take P).length < P := by omega
        rw [pagedFetchGo, if_neg hne, if_neg hnlt]
        have hdlen : ((x :: xs).drop P).length < f := by
          rw [List.length_drop]
          simp only [List.length_cons] at h hge ⊢
          omega
        rw [ih _ _ _ hdlen]
        have hsplit : (x :: xs).filter isExerciseTx
            = ((x :: xs).take P).filter isExerciseTx
              ++ ((x :: xs).drop P).filter isExerciseTx := by
          rw [← List.filter_append, List.take_append_drop]
        have hdiv : (x :: xs).length / P = ((x :: xs).drop P).length / P + 1 := by
          rw [List.length_drop]
          exact Nat.div_eq_sub_div hP hge
        rw [hsplit, hdiv, List.append_assoc, Prod.mk.injEq]
        exact ⟨rfl, by omega⟩

/-- C4 counterexample: a source holding exactly 100 matching items with
page size 100 makes the fetcher issue 2 page requests, not
ceil(100/100) = 1 — the "shorter than page size" stop rule needs one
extra, empty page request when the item count is an exact multiple of the
page size. -/
theorem paged_fetch_extra_request_cex :
    (get_all_exercise_txs 100 (List.replicate 100 cExTx)).2 = 2
    ∧ (2 : Nat) ≠ (100 + 100 - 1) / 100 := by
  constructor
  · rw [get_all_exercise_txs,
      pagedFetchGo_spec 100 (by omega) _ _ _ _ (by simp)]
    simp
  · omega

/-- C4 (amended): for a source returning exactly the given matching items
across pages of size P, the fetcher returns all of them in source order,
and issues exactly N / P + 1 page requests, where N is the item count —
this equals ceil(N/P) whenever N is not an exact multiple of P, and is
one more (a trailing empty-page request) when it is. -/
theorem paged_fetch_requests_and_output (P : Nat) (items : List ExTx)
    (hP : 0 < P) :
    (get_all_exercise_txs P items).1 = items.filter isExerciseTx
    ∧ (get_all_exercise_txs P items).2 = items.length / P + 1 := by
  rw [get_all_exercise_txs, pagedFetchGo_spec P hP _ _ _ _ (by omega)]
  constructor
  · simp
  · simp [Nat.zero_add]

/-- C4 witness: three matching items with page size 2 — two page requests,
all items returned in order. -/
theorem paged_fetch_requests_witness :
    (get_all_exercise_txs 2 [cExTx, cExTx, cExTx]).1
      = [cExTx, cExTx, cExTx].filter isExerciseTx
    ∧ (get_all_exercise_txs 2 [cExTx, cExTx, cExTx]).2
      = [cExTx, cExTx, cExTx].length / 2 + 1 :=
  paged_fetch_requests_and_output 2 [cExTx, cExTx, cExTx] (by omega)

-- C5: termination of the block-range pagination loop

theorem fetchBlocksFuel_stuck :
    ∀ (fuel start : Nat) (st : List BTx × List String),
    fetchBlocksFuel stuckResp fuel start st = none := by
  intro fuel
  induction fuel with
  | zero => intro start st; rfl
  | succ f ih =>
    intro start st
    rw [fetchBlocksFuel]
    simp only [stuckResp, List.length_replicate, lt_self_iff_false, if_false]
    apply ih

/-- C5 counterexample: an API that answers every request with a full page
of 10000 items whose last block number is 5 drives the fetch loop
forever: after the cursor passes block 5 it oscillates between 5 and 6
and the stop condition never holds, so there is a sequence of API
responses that makes the loop run forever. -/
theorem block_fetch_nontermination_cex : ¬ fetchBlocksTerminates stuckResp := by
  rintro ⟨fuel, h⟩
  rw [fetchBlocksFuel_stuck] at h
  simp at h

/-- C5 (amended): whenever the cursor does not advance (the last returned
block equals the current start block) the fetcher force-advances the
lower bound by one block, and the cursor strictly increases on every
nonempty response whose blocks respect the requested lower bound; but
this does not make every response sequence terminate (see the
counterexample). -/
theorem cursor_force_advance (start : Nat) (results : List BTx)
    (hne : results ≠ [])
    (hlb : ∀ t ∈ results, start ≤ t.blockNumber) :
    (∀ t, results.getLast? = some t → t.blockNumber = start →
      nextStartBlock start results = start + 1)
    ∧ start < nextStartBlock start results := by
  have hlast : results.getLast? = some (results.getLast hne) :=
    List.getLast?_eq_getLast results hne
  constructor
  · intro t ht heq
    simp only [nextStartBlock, ht, heq, if_true]
  · have hle := hlb _ (List.getLast_mem hne)
    simp only [nextStartBlock, hlast]
    by_cases hcase : (results.getLast hne).blockNumber = start
    · rw [if_pos hcase]
      omega
    · rw [if_neg hcase]
      omega

/-- C5 witness: a single-item response at the requested lower bound is
force-advanced from 0 to 1. -/
theorem cursor_force_advance_witness :
    (∀ t, [(⟨"h", "t", 0⟩ : BTx)].getLast? = some t → t.blockNumber = 0 →
      nextStartBlock 0 [(⟨"h", "t", 0⟩ : BTx)] = 0 + 1)
    ∧ 0 < nextStartBlock 0 [(⟨"h", "t", 0⟩ : BTx)] :=
  cursor_force_advance 0 [⟨"h", "t", 0⟩] (by simp)
    (fun t _ => Nat.zero_le t.blockNumber)

-- C3: dedup across page boundaries

theorem dedupInto_inv (results : List BTx) :
    ∀ (acc : List BTx) (seen : List String),
    seen = acc.map txKey → seen.Nodup →
    (dedupInto (acc, seen) results).2 = (dedupInto (acc, seen) results).1.map txKey
    ∧ (dedupInto (acc, seen) results).2.Nodup
    ∧ (∀ tx ∈ results, txKey tx ∈ (dedupInto (acc, seen) results).2)
    ∧ (∀ s ∈ seen, s ∈ (dedupInto (acc, seen) results).2)
    ∧ (∀ tx ∈ acc, tx ∈ (dedupInto (acc, seen) results).1)
    ∧ (∀ tx ∈ (dedupInto (acc, seen) results).1, tx ∈ acc ∨ tx ∈ results) := by
  induction results with
  | nil =>
    intro acc seen hmap hnd
    refine ⟨hmap, hnd, by simp, fun s hs => hs, fun tx htx => htx, fun tx htx => .inl htx⟩
  | cons tx rest ih =>
    intro acc seen hmap hnd
    have hstep : dedupInto (acc, seen) (tx :: rest)
        = dedupInto (dedupStep (acc, seen) tx) rest := rfl
    by_cases hk : txKey tx ∈ seen
    · have hds : dedupStep (acc, seen) tx = (acc, seen) := by
        simp [dedupStep, hk]
      rw [hstep, hds]
      obtain ⟨h1, h2, h3, h4, h5, h6⟩ := ih acc seen hmap hnd
      refine ⟨h1, h2, ?_, h4, h5, ?_⟩
      · intro t ht
        rcases List.mem_cons.mp ht with he | hr
        · subst he
          exact h4 _ hk
        · exact h3 t hr
      · intro t ht
        rcases h6 t ht with h | h
        · exact .inl h
        · exact .inr (List.mem_cons_of_mem _ h)
    · have hds : dedupStep (acc, seen) tx = (acc ++ [tx], seen ++ [txKey tx]) := by
        simp [dedupStep, hk]
      rw [hstep, hds]
      have hmap' : seen ++ [txKey tx] = (acc ++ [tx]).map txKey := by
        rw [List.map_append, hmap]
        rfl
      have hnd' : (seen ++ [txKey tx]).Nodup := by
        simp [List.nodup_append, hnd, hk]
      obtain ⟨h1, h2, h3, h4, h5, h6⟩ := ih (acc ++ [tx]) (seen ++ [txKey tx]) hmap' hnd'
      refine ⟨h1, h2, ?_, ?_, ?_, ?_⟩
      · intro t ht
        rcases List.mem_cons.mp ht with he | hr
        · subst he
          exact h4 _ (by simp)
        · exact h3 t hr
      · intro s hs
        exact h4 s (by simp [hs])
      · intro t ht
        exact h5 t (by simp [ht])
      · intro t ht
        rcases h6 t ht with h | h
        · rcases List.mem_append.mp h with h | h
          · exact .inl h
          · simp only [List.mem_singleton] at h
            exact .inr (by simp [h])
        · exact .inr (List.mem_cons_of_mem _ h)

theorem foldl_dedupInto_inv (pages : List (List BTx)) :
    ∀ (acc : List BTx) (seen : List String),
    seen = acc.map txKey → seen.Nodup →
    (pages.foldl dedupInto (acc, seen)).2
      = (pages.foldl dedupInto (acc, seen)).1.map txKey
    ∧ (pages.foldl dedupInto (acc, seen)).2.Nodup
    ∧ (∀ tx ∈ pages.flatten, txKey tx ∈ (pages.foldl dedupInto (acc, seen)).2)
    ∧ (∀ tx ∈ acc, tx ∈ (pages.foldl dedupInto (acc, seen)).1)
    ∧ (∀ tx ∈ (pages.foldl dedupInto (acc, seen)).1, tx ∈ acc ∨ tx ∈ pages.flatten) := by
  induction pages with
  | nil =>
    intro acc seen hmap hnd
    refine ⟨hmap, hnd, by simp, fun tx htx => htx, fun tx htx => .inl htx⟩
  | cons page rest ih =>
    intro acc seen hmap hnd
    obtain ⟨p1, p2, p3, p4, p5, p6⟩ := dedupInto_inv page acc seen hmap hnd
    have hfold : (page :: rest).foldl dedupInto (acc, seen)
        = rest.foldl dedupInto (dedupInto (acc, seen) page) := rfl
    rcases hst : dedupInto (acc, seen) page with ⟨acc1, seen1⟩
    rw [hst] at p1 p2 p3 p5 p6
    obtain ⟨h1, h2, h3, h5, h6⟩ := ih acc1 seen1 p1 p2
    rw [hfold, hst]
    refine ⟨h1, h2, ?_, ?_, ?_⟩
    · intro tx htx
      rw [List.flatten_cons, List.mem_append] at htx
      rcases htx with hp | hr
      · -- the key entered seen1 while page was processed; every item of
        -- acc1 survives into the final accumulator, whose keys are the
        -- final seen list
        have p1' : seen1 = List.map txKey acc1 := p1
        have hk : txKey tx ∈ List.map txKey acc1 := p1' ▸ p3 tx hp
        obtain ⟨t, htmem, hteq⟩ := List.mem_map.mp hk
        rw [h1]
        exact List.mem_map.mpr ⟨t, h5 t htmem, hteq⟩
      · exact h3 tx hr
    · intro tx htx
      exact h5 tx (p5 tx htx)
    · intro tx htx
      rcases h6 tx htx with h | h
      · rcases p6 tx h with h | h
        · exact .inl h
        · exact .inr (by rw [List.flatten_cons, List.mem_append]; exact .inl h)
      · exact .inr (by rw [List.flatten_cons, List.mem_append]; exact .inr h)

/-- C3: for every page sequence (in particular one where consecutive
block-range fetches overlap on the boundary block) the fetcher output
contains each composite key (hash plus tokenID or logIndex) exactly once:
keys are never duplicated, every key occurring in any page is present,
and every output item comes from some page. -/
theorem fetch_dedup_each_key_exactly_once (pages : List (List BTx)) :
    ((fetchPagesDedup pages).map txKey).Nodup
    ∧ (∀ tx ∈ pages.flatten,
        ((fetchPagesDedup pages).map txKey).count (txKey tx) = 1)
    ∧ (∀ tx ∈ fetchPagesDedup pages, tx ∈ pages.flatten) := by
  obtain ⟨h1, h2, h3, _, h6⟩ :=
    foldl_dedupInto_inv pages [] [] (by simp) List.nodup_nil
  have hnd : ((fetchPagesDedup pages).map txKey).Nodup := by
    rw [fetchPagesDedup, ← h1]
    exact h2
  refine ⟨hnd, ?_, ?_⟩
  · intro tx htx
    refine List.count_eq_one_of_mem hnd ?_
    rw [fetchPagesDedup, ← h1]
    exact h3 tx htx
  · intro tx htx
    rcases h6 tx htx with h | h
    · simp at h
    · exact h

-- C10: build_ownership

theorem mem_keys_setNat {V : Type} (m : List (Nat × V)) (k a : Nat) (v : V) :
    a ∈ (setNat m k v).map Prod.fst ↔ a ∈ m.map Prod.fst ∨ a = k := by
  induction m with
  | nil => simp [setNat]
  | cons p rest ih =>
    obtain ⟨k0, v0⟩ := p
    by_cases h0 : k0 = k
    · subst h0
      simp [setNat]
      tauto
    · simp [setNat, h0, ih]
      tauto

theorem nodup_keys_setNat {V : Type} (m : List (Nat × V)) (k : Nat) (v : V)
    (h : (m.map Prod.fst).Nodup) : ((setNat m k v).map Prod.fst).Nodup := by
  induction m with
  | nil => simp [setNat]
  | cons p rest ih =>
    obtain ⟨k0, v0⟩ := p
    simp only [List.map_cons, List.nodup_cons] at h
    by_cases h0 : k0 = k
    · subst h0
      have hgoal : setNat ((k0, v0) :: rest) k0 v = (k0, v) :: rest := by
        simp [setNat]
      rw [hgoal, List.map_cons, List.nodup_cons]
      exact ⟨h.1, h.2⟩
    · simp only [setNat, if_neg h0, List.map_cons, List.nodup_cons]
      refine ⟨?_, ih h.2⟩
      rw [mem_keys_setNat]
      rintro (hm | he)
      · exact h.1 hm
      · exact h0 he

theorem nodup_keys_buildOwnershipMap (txs : List NTx) :
    ((buildOwnershipMap txs).map Prod.fst).Nodup := by
  suffices h : ∀ m : List (Nat × String), (List.map Prod.fst m).Nodup →
      ((txs.foldl (fun m tx => setNat m tx.tokenID tx.toAddr) m).map Prod.fst).Nodup by
    exact h [] (by simp)
  induction txs with
  | nil => intro m hm; exact hm
  | cons t ts ih =>
    intro m hm
    exact ih _ (nodup_keys_setNat m _ _ hm)

theorem lookup_buildOwnershipMap (txs : List NTx) (tid : Nat) :
    lookupNat (buildOwnershipMap txs) tid = lastTransferTo txs tid := by
  induction txs using List.reverseRecOn with
  | nil => rfl
  | append_singleton l t ih =>
    have hfold : buildOwnershipMap (l ++ [t])
        = setNat (buildOwnershipMap l) t.tokenID t.toAddr := by
      simp [buildOwnershipMap, List.foldl_append]
    rw [hfold, lookupNat_setNat]
    unfold lastTransferTo at *
    rw [List.filter_append, List.map_append]
    by_cases ht : t.tokenID = tid
    · have hf : List.filter (fun x => x.tokenID == tid) [t] = [t] := by simp [ht]
      rw [hf, if_pos ht]
      simp
    · have hf : List.filter (fun x => x.tokenID == tid) [t] = [] := by simp [ht]
      rw [hf, if_neg ht]
      simp [ih]

theorem count_filter_keys (m : List (Nat × String)) (tid : Nat) (a : String)
    (hnd : (m.map Prod.fst).Nodup) :
    ((m.filter (fun p => p.2 = a)).map Prod.fst).count tid
      = if lookupNat m tid = some a then 1 else 0 := by
  induction m with
  | nil => simp [lookupNat]
  | cons p rest ih =>
    obtain ⟨k, v⟩ := p
    simp only [List.map_cons, List.nodup_cons] at hnd
    have hrest := ih hnd.2
    by_cases hk : k = tid
    · subst hk
      have hz : ((rest.filter (fun p => p.2 = a)).map Prod.fst).count k = 0 := by
        rw [List.count_eq_zero]
        intro hmem
        obtain ⟨q, hq, hqe⟩ := List.mem_map.mp hmem
        exact hnd.1 (List.mem_map.mpr ⟨q, (List.mem_filter.mp hq).1, hqe⟩)
      by_cases hv : v = a
      · have hlk : lookupNat ((k, v) :: rest) k = some a := by
          simp [lookupNat, hv]
        rw [List.filter_cons_of_pos (by simp [hv]), List.map_cons,
          List.count_cons_self, hz, if_pos hlk]
      · have hno : ¬ lookupNat ((k, v) :: rest) k = some a := by
          simp [lookupNat, hv]
        rw [List.filter_cons_of_neg (by simp [hv]), hz, if_neg hno]
    · have hlk : lookupNat ((k, v) :: rest) tid = lookupNat rest tid := by
        simp [lookupNat, hk]
      by_cases hv : v = a
      · rw [List.filter_cons_of_pos (by simp [hv]), List.map_cons,
          List.count_cons_of_ne (fun h => hk h.symm), hlk, hrest]
      · rw [List.filter_cons_of_neg (by simp [hv]), hlk, hrest]

theorem count_tokenIdsOf (m : List (Nat × String)) (tid : Nat) (a : String)
    (hnd : (m.map Prod.fst).Nodup) :
    (tokenIdsOf m a).count tid = if lookupNat m tid = some a then 1 else 0 := by
  rw [tokenIdsOf, (List.mergeSort_perm _ _).count_eq, count_filter_keys m tid a hnd]

/-- C10: after sorting the transfers by (block number, transaction index)
ascending, the ownership map assigns each token the destination address
of its last transfer; a token owned by the zero address is counted in no
owner's token_ids list, and a token owned by any other address appears
exactly once in that owner's token_ids list and in no other. -/
theorem build_ownership_owner_and_holder_lists (txs : List NTx) (tid : Nat)
    (a : String)
    (h : lookupNat (buildOwnershipMap (sortTransfers txs)) tid = some a) :
    lastTransferTo (sortTransfers txs) tid = some a
    ∧ (a = ZERO_ADDR → ∀ c, c ≠ ZERO_ADDR →
        (tokenIdsOf (buildOwnershipMap (sortTransfers txs)) c).count tid = 0)
    ∧ (a ≠ ZERO_ADDR →
        (tokenIdsOf (buildOwnershipMap (sortTransfers txs)) a).count tid = 1
        ∧ ∀ c, c ≠ a →
          (tokenIdsOf (buildOwnershipMap (sortTransfers txs)) c).count tid = 0) := by
  have hnd := nodup_keys_buildOwnershipMap (sortTransfers txs)
  refine ⟨?_, ?_, ?_⟩
  · rw [← lookup_buildOwnershipMap]
    exact h
  · intro ha c hc
    rw [count_tokenIdsOf _ _ _ hnd, if_neg]
    rw [h]
    intro hsome
    exact hc (ha ▸ (Option.some.inj hsome).symm)
  · intro ha
    constructor
    · rw [count_tokenIdsOf _ _ _ hnd, if_pos h]
    · intro c hc
      rw [count_tokenIdsOf _ _ _ hnd, if_neg]
      rw [h]
      intro hsome
      exact hc (Option.some.inj hsome).symm

/-- C10 witness: a single mint of token 1 to a nonzero address — the
owner is the last transfer destination and token 1 is listed exactly once
under that owner. -/
theorem build_ownership_witness :
    lastTransferTo (sortTransfers [cMint]) 1 = some "0xaaa"
    ∧ ("0xaaa" = ZERO_ADDR → ∀ c, c ≠ ZERO_ADDR →
        (tokenIdsOf (buildOwnershipMap (sortTransfers [cMint])) c).count 1 = 0)
    ∧ ("0xaaa" ≠ ZERO_ADDR →
        (tokenIdsOf (buildOwnershipMap (sortTransfers [cMint])) "0xaaa").count 1 = 1
        ∧ ∀ c, c ≠ "0xaaa" →
          (tokenIdsOf (buildOwnershipMap (sortTransfers [cMint])) c).count 1 = 0) :=
  build_ownership_owner_and_holder_lists [cMint] 1 "0xaaa" (by
    simp [sortTransfers, buildOwnershipMap, cMint, setNat, lookupNat])

/-- C3 witness: two consecutive pages overlapping on the same item — the
output keys are duplicate-free and the overlapping item's key appears
exactly once. -/
theorem fetch_dedup_witness :
    ((fetchPagesDedup [[⟨"h", "1", 5⟩], [⟨"h", "1", 5⟩]]).map txKey).Nodup
    ∧ ((fetchPagesDedup [[⟨"h", "1", 5⟩], [⟨"h", "1", 5⟩]]).map txKey).count
        (txKey ⟨"h", "1", 5⟩) = 1 :=
  ⟨(fetch_dedup_each_key_exactly_once [[⟨"h", "1", 5⟩], [⟨"h", "1", 5⟩]]).1,
   (fetch_dedup_each_key_exactly_once [[⟨"h", "1", 5⟩], [⟨"h", "1", 5⟩]]).2.1
     ⟨"h", "1", 5⟩ (by simp)⟩
